import Mathlib

/-!
Verification of the client coordination core of a BFT object-ledger
(quorum broadcaster, per-address store, lock table, sync/repair, object
downloader). Shallow embedding: the Rust functions of
`fastpay_core/src/client.rs` and `sui_core/src/client.rs` are translated
to executable Lean definitions; stake weights, sequence numbers, digests
and identifiers are modelled as `Nat`, fallible operations return
`Except`, and the per-address persistent store becomes a record of
finite (function) maps.
-/

namespace SuiClient

/-- Authority names (`AuthorityName`, a public key) modelled as `Nat`. -/
abbrev AuthorityName := Nat

/-! ## Quorum broadcaster (`communicate_with_quorum`, fastpay_core/src/client.rs 616-662)

The broadcaster is generic over the value type `V` returned by the
per-authority action and the error type `E` (`FastPayError`; grouping of
errors in the source is by full value equality on the error, so `E` only
needs decidable equality).  A run is represented by the list of
`(authority, outcome)` responses in arrival order; `weight` gives each
authority's stake, `qt`/`vt` the committee's quorum and validity
thresholds. -/

section QuorumBroadcaster

variable {V E : Type} [DecidableEq E]

/-- The `values` collected from successful responses of a (partial) run. -/
def okValues (l : List (AuthorityName × Except E V)) : List V :=
  l.filterMap fun p => match p.2 with
    | .ok v => some v
    | .error _ => none

/-- Total stake (`value_score`) of the successful responses of a run. -/
def successStake (w : AuthorityName → Nat) (l : List (AuthorityName × Except E V)) : Nat :=
  (l.filterMap fun p => match p.2 with
    | .ok _ => some (w p.1)
    | .error _ => none).sum

/-- Total stake of the responses of a run carrying exactly the error `e`. -/
def errStake (w : AuthorityName → Nat) (e : E) (l : List (AuthorityName × Except E V)) : Nat :=
  (l.filterMap fun p => match p.2 with
    | .error f => if f = e then some (w p.1) else none
    | .ok _ => none).sum

/-- The distinct error values seen in a run, in first-arrival order
(the key set of the source's `error_scores` map). -/
def seenKinds (l : List (AuthorityName × Except E V)) : List E :=
  l.foldl (fun acc p => match p.2 with
    | .error e => if e ∈ acc then acc else acc ++ [e]
    | .ok _ => acc) []

/-- `error_scores.entry(err).or_insert(0); *entry += weight`: bump the
score of error `e` by `n` in the association list, appending a fresh
entry when `e` is absent. -/
def bumpScore (es : List (E × Nat)) (e : E) (n : Nat) : List (E × Nat) :=
  match es with
  | [] => [(e, n)]
  | (f, m) :: rest => if f = e then (f, m + n) :: rest else (f, m) :: bumpScore rest e n

/-- Read error `e`'s accumulated score (0 when absent). -/
def lookupScore (es : List (E × Nat)) (e : E) : Nat :=
  match es with
  | [] => 0
  | (f, m) :: rest => if f = e then m else lookupScore rest e

/-- The response-consuming loop of `communicate_with_quorum`
(fastpay_core/src/client.rs 633-661): `vs` are the collected values,
`sc` the accumulated `value_score`, `es` the `error_scores` map. -/
def communicateAux (qt vt : Nat) (w : AuthorityName → Nat) :
    List (AuthorityName × Except E V) → List V → Nat → List (E × Nat) →
    Except (List E) (List V)
  | [], _, _, es => .error (es.map Prod.fst)
  | (name, .ok v) :: rest, vs, sc, es =>
    let vs' := vs ++ [v]
    let sc' := sc + w name
    if qt ≤ sc' then .ok vs'
    else communicateAux qt vt w rest vs' sc' es
  | (name, .error e) :: rest, vs, sc, es =>
    let es' := bumpScore es e (w name)
    if vt ≤ lookupScore es' e then .error (es'.map Prod.fst)
    else communicateAux qt vt w rest vs sc es'

/-- `communicate_with_quorum` over a run of responses.  A `.error ks`
result models `Err(FastPayError::QuorumNotReached { errors: ks })`. -/
def communicate_with_quorum (qt vt : Nat) (w : AuthorityName → Nat)
    (responses : List (AuthorityName × Except E V)) : Except (List E) (List V) :=
  communicateAux qt vt w responses [] 0 []

/-- Modelled from the spec: the termination conditions of §4.E, checked
on every prefix of the run as responses arrive.  `pre` is the prefix of
already-consumed responses; after consuming one more response the loop
returns the collected values as soon as the success stake reaches `qt`,
returns the kinds seen as soon as one exact error kind's stake reaches
`vt`, and returns the kinds seen when all responses are consumed. -/
def quorumSpecGo (qt vt : Nat) (w : AuthorityName → Nat)
    (pre : List (AuthorityName × Except E V)) :
    List (AuthorityName × Except E V) → Except (List E) (List V)
  | [] => .error (seenKinds pre)
  | r :: rest =>
    let pre' := pre ++ [r]
    if qt ≤ successStake w pre' then .ok (okValues pre')
    else if (seenKinds pre').any (fun e => decide (vt ≤ errStake w e pre')) then
      .error (seenKinds pre')
    else quorumSpecGo qt vt w pre' rest

/-- Modelled from the spec: §4.E termination conditions over a whole run. -/
def communicate_with_quorum_spec (qt vt : Nat) (w : AuthorityName → Nat)
    (responses : List (AuthorityName × Except E V)) : Except (List E) (List V) :=
  quorumSpecGo qt vt w [] responses

end QuorumBroadcaster

/-! ## Data model of the per-address client state (sui_core/src/client.rs)

Identifiers, versions and digests are opaque fixed-width values in the
source and are modelled as `Nat`. -/

abbrev ObjectID := Nat
abbrev SequenceNumber := Nat
abbrev ObjectDigest := Nat
abbrev TxDigest := Nat
abbrev SuiAddress := Nat

/-- `ObjectRef = (ObjectId, SequenceNumber, ObjectDigest)`. -/
structure ObjectRef where
  id : ObjectID
  seq : SequenceNumber
  digest : ObjectDigest
deriving DecidableEq, Repr

/-- `InputObjectKind` (sui_types): only owned and shared inputs
participate in locking; packages are immutable.  The package payload and
the version of a shared input are never used by the verified operations;
the shared version is modelled as 0 (the accessor lives outside src/ and
no theorem below depends on the choice). -/
inductive InputObjectKind where
  | MovePackage (id : ObjectID)
  | OwnedMoveObject (r : ObjectRef)
  | SharedMoveObject (id : ObjectID)
deriving DecidableEq, Repr

def InputObjectKind.object_id : InputObjectKind → ObjectID
  | .MovePackage i => i
  | .OwnedMoveObject r => r.id
  | .SharedMoveObject i => i

def InputObjectKind.version : InputObjectKind → SequenceNumber
  | .MovePackage _ => 0
  | .OwnedMoveObject r => r.seq
  | .SharedMoveObject _ => 0

/-- A transaction: sender, input objects, and its digest (the hash of
the canonical encoding, modelled as an opaque stored value). -/
structure Transaction where
  sender : SuiAddress
  inputs : List InputObjectKind
  tdigest : TxDigest
deriving DecidableEq, Repr

def Transaction.input_objects (t : Transaction) : List InputObjectKind := t.inputs

/-- The non-package input ids of a transaction: exactly the keys touched
by `can_lock_or_unlock` / `lock_pending_transaction_objects` /
`unlock_pending_transaction_objects` (sui_core/src/client.rs 415-424,
459-468, 487-493). -/
def lockKeys (t : Transaction) : List ObjectID :=
  t.input_objects.filterMap fun q => match q with
    | .MovePackage _ => none
    | .OwnedMoveObject w => some w.id
    | .SharedMoveObject w => some w

/-- `Owner`: single-owner address or shared.  The source's
`PartialEq<SuiAddress>` for `Owner` (outside src/) holds exactly on
`SingleOwner`, as fixed by the explicit `Owner::SingleOwner(address)`
comparison at sui_core/src/client.rs 624. -/
inductive Owner where
  | SingleOwner (a : SuiAddress)
  | SharedMutable
deriving DecidableEq, Repr

/-- A certified transaction; the vote set is irrelevant to the store
updates verified here. -/
structure CertifiedTransaction where
  transaction : Transaction
deriving DecidableEq, Repr

/-- `TransactionEffects`: created/mutated entries carry (ObjectRef, Owner). -/
structure TransactionEffects where
  created : List (ObjectRef × Owner)
  mutated : List (ObjectRef × Owner)
  deleted : List ObjectRef
deriving DecidableEq, Repr

/-- Modelled from the spec: the `mutated_and_created` accessor of
`TransactionEffects` lives in sui_types (outside src/); the spec (§8 P1)
speaks of `E.created ∪ E.mutated`.  Modelled as mutated followed by
created; the theorems below are insensitive to the order under their
distinct-ids hypotheses. -/
def TransactionEffects.mutated_and_created (e : TransactionEffects) :
    List (ObjectRef × Owner) :=
  e.mutated ++ e.created

/-- Reason tags for `ObjectFetchFailed`; the source carries them as
strings (fastpay_core/src/client.rs 1317-1353). -/
inductive FetchFailReason where
  | noAuthorityReturnedObject
  | objectAndLockIsNone
  | digestMismatch
  | requestTimedOut
deriving DecidableEq, Repr

/-- The error kinds (`SuiError` / `FastPayError`) used by the verified
operations. -/
inductive SuiError where
  | ObjectNotFound (object_id : ObjectID)
  | UnexpectedSequenceNumber (object_id : ObjectID) (expected_sequence : SequenceNumber)
  | ConcurrentTransactionError
  | AuthorityUpdateFailure
  | AuthorityInformationUnavailable
  | ErrorWhileRequestingCertificate
  | ObjectFetchFailed (object_id : ObjectID) (err : FetchFailReason)
  | LockErrors
  | InvalidObjectDigest
deriving DecidableEq, Repr

/-- The four persistent columns of the per-address store touched by the
verified operations, modelled as finite maps. -/
structure ClientState where
  object_refs : ObjectID → Option ObjectRef
  object_certs : ObjectRef → Option TxDigest
  certificates : TxDigest → Option CertifiedTransaction
  pending_transactions : ObjectID → Option Transaction

/-- `highest_known_version` (sui_core/src/client.rs 260-263). -/
def highest_known_version (st : ClientState) (object_id : ObjectID) :
    Except SuiError SequenceNumber :=
  match st.object_refs object_id with
  | some r => .ok r.seq
  | none => .error (.ObjectNotFound object_id)

/-- `.unwrap_or_default()` on a sequence-number result: 0 on error. -/
def unwrapOrDefaultSeq (r : Except SuiError SequenceNumber) : SequenceNumber :=
  match r with
  | .ok v => v
  | .error _ => 0

/-- `can_lock_or_unlock` (sui_core/src/client.rs 413-437): true iff every
non-package input's pending entry is absent or equals this transaction. -/
def can_lock_or_unlock (st : ClientState) (t : Transaction) : Bool :=
  (lockKeys t).all fun k => match st.pending_transactions k with
    | none => true
    | some o => decide (o = t)

/-- `lock_pending_transaction_objects` (sui_core/src/client.rs 445-471). -/
def lock_pending_transaction_objects (st : ClientState) (t : Transaction) :
    Except SuiError ClientState :=
  if can_lock_or_unlock st t then
    .ok { st with pending_transactions :=
            fun k => if k ∈ lockKeys t then some t else st.pending_transactions k }
  else .error .ConcurrentTransactionError

/-- `unlock_pending_transaction_objects` (sui_core/src/client.rs 475-495). -/
def unlock_pending_transaction_objects (st : ClientState) (t : Transaction) :
    Except SuiError ClientState :=
  if can_lock_or_unlock st t then
    .ok { st with pending_transactions :=
            fun k => if k ∈ lockKeys t then none else st.pending_transactions k }
  else .error .ConcurrentTransactionError

/-- The pending column after an unlock attempt (the store is unchanged
when the attempt fails). -/
def pendingAfterUnlock (st : ClientState) (t : Transaction) :
    ObjectID → Option Transaction :=
  match unlock_pending_transaction_objects st t with
  | .ok st' => st'.pending_transactions
  | .error _ => st.pending_transactions

/-- `insert_object_info` (sui_core/src/client.rs 347-369): one atomic
batch writing `object_certs[ref] = parent_tx_digest` and
`object_refs[ref.id] = ref`. -/
def insert_object_info (st : ClientState) (object_ref : ObjectRef)
    (parent_tx_digest : TxDigest) : ClientState :=
  { st with
    object_certs := fun r => if r = object_ref then some parent_tx_digest else st.object_certs r,
    object_refs := fun i => if i = object_ref.id then some object_ref else st.object_refs i }

/-- `remove_object_info` (sui_core/src/client.rs 371-385): one atomic
batch deleting the whole `object_certs` range of the id and the
`object_refs` entry. -/
def remove_object_info (st : ClientState) (object_id : ObjectID) : ClientState :=
  { st with
    object_certs := fun r => if r.id = object_id then none else st.object_certs r,
    object_refs := fun i => if i = object_id then none else st.object_refs i }

/-- `update_object_ref` (sui_core/src/client.rs 273-276). -/
def update_object_ref (st : ClientState) (object_ref : ObjectRef) : ClientState :=
  { st with object_refs :=
      fun i => if i = object_ref.id then some object_ref else st.object_refs i }

/-- `insert_certificate` (sui_core/src/client.rs 338-345). -/
def insert_certificate (st : ClientState) (tx_digest : TxDigest)
    (cert : CertifiedTransaction) : ClientState :=
  { st with certificates := fun d => if d = tx_digest then some cert else st.certificates d }

/-- One iteration of the mutated-and-created loop of
`update_objects_from_transaction_info` (sui_core/src/client.rs 610-628). -/
def applyMutatedEntry (address : SuiAddress) (parent_tx_digest : TxDigest)
    (st : ClientState) (entry : ObjectRef × Owner) : ClientState :=
  let object_ref := entry.1
  let owner := entry.2
  let old_seq := unwrapOrDefaultSeq (highest_known_version st object_ref.id)
  if old_seq < object_ref.seq then
    if owner = Owner.SingleOwner address then
      insert_object_info st object_ref parent_tx_digest
    else
      remove_object_info st object_ref.id
  else if old_seq = object_ref.seq ∧ owner = Owner.SingleOwner address then
    update_object_ref st object_ref
  else st

/-- One iteration of the deleted loop of
`update_objects_from_transaction_info` (sui_core/src/client.rs 636-641). -/
def applyDeletedEntry (st : ClientState) (object_ref : ObjectRef) : ClientState :=
  let old_seq := unwrapOrDefaultSeq (highest_known_version st object_ref.id)
  if old_seq < object_ref.seq then remove_object_info st object_ref.id else st

/-- `update_objects_from_transaction_info` (sui_core/src/client.rs
596-643).  The object-download kick-off is commented out in the source
and storage errors are impossible in the pure model. -/
def update_objects_from_transaction_info (st : ClientState)
    (cert : CertifiedTransaction) (effects : TransactionEffects) : ClientState :=
  let address := cert.transaction.sender
  let parent_tx_digest := cert.transaction.tdigest
  let st1 := insert_certificate st parent_tx_digest cert
  let st2 := effects.mutated_and_created.foldl (applyMutatedEntry address parent_tx_digest) st1
  effects.deleted.foldl applyDeletedEntry st2

/-- The per-input version precheck of `execute_transaction`
(sui_core/src/client.rs 554-567): the locally known highest version
defaults to 0 when the object is unknown. -/
def precheckInput (st : ClientState) (object_kind : InputObjectKind) :
    Except SuiError Unit :=
  let object_id := object_kind.object_id
  let next_sequence_number := unwrapOrDefaultSeq (highest_known_version st object_id)
  if object_kind.version ≥ next_sequence_number then .ok ()
  else .error (.UnexpectedSequenceNumber object_id next_sequence_number)

/-- The precheck loop over all inputs, first failure wins. -/
def precheckInputs (st : ClientState) : List InputObjectKind → Except SuiError Unit
  | [] => .ok ()
  | k :: rest =>
    match precheckInput st k with
    | .error e => .error e
    | .ok _ => precheckInputs st rest

/-- `execute_transaction_inner` (sui_core/src/client.rs 514-538): the
quorum run against the authorities is abstracted as `oracle` (its
certificate and effects when it reaches quorum, its error otherwise);
on success the local store is updated from the transaction info. -/
def execute_transaction_inner
    (oracle : Except SuiError (CertifiedTransaction × TransactionEffects))
    (st : ClientState) :
    Except SuiError (CertifiedTransaction × TransactionEffects) × ClientState :=
  match oracle with
  | .error e => (.error e, st)
  | .ok (c, eff) => (.ok (c, eff), update_objects_from_transaction_info st c eff)

/-- `execute_transaction` (sui_core/src/client.rs 545-594): precheck,
lock, run the inner vote/confirm pipeline, then unlock unconditionally
(the source unlocks on success and on every inner error alike) and
return the inner result. -/
def execute_transaction
    (oracle : Except SuiError (CertifiedTransaction × TransactionEffects))
    (transaction : Transaction) (st : ClientState) :
    Except SuiError (CertifiedTransaction × TransactionEffects) × ClientState :=
  match precheckInputs st transaction.input_objects with
  | .error e => (.error e, st)
  | .ok _ =>
    match lock_pending_transaction_objects st transaction with
    | .error e => (.error e, st)
    | .ok st1 =>
      match unlock_pending_transaction_objects
          (execute_transaction_inner oracle st1).2 transaction with
      | .error e => (.error e, (execute_transaction_inner oracle st1).2)
      | .ok st3 => ((execute_transaction_inner oracle st1).1, st3)

/-- `handle_transaction_error_side_effects` (fastpay_core/src/client.rs
955-995): the whole side-effect-free classification and early unlock is
commented out in the source; the function returns its argument
unchanged. -/
def handle_transaction_error_side_effects {T : Type}
    (val : Except SuiError T) : Except SuiError T :=
  val

/-! ## Certificate requester (`CertificateRequester::query`,
fastpay_core/src/client.rs 279-323) -/

/-- `ObjectInfoRequest` as sent to an authority. -/
structure ObjectInfoRequest where
  object_id : ObjectID
  request_sequence_number : Option SequenceNumber
deriving DecidableEq, Repr

/-- The request built by `CertificateRequester::query` for
`(object_id, sequence_number)` (fastpay_core/src/client.rs 290-295):
the source computes `inner_sequence_number = sequence_number.increment()`
and asks for the parent certificate at that incremented sequence. -/
def query_request (object_id : ObjectID) (sequence_number : SequenceNumber) :
    ObjectInfoRequest :=
  { object_id := object_id, request_sequence_number := some (sequence_number + 1) }

/-! ## Sync of a certificate to an authority
(`sync_certificate_to_authority_with_timeout`,
fastpay_core/src/client.rs 458-521) -/

/-- The rejection-sampling loop drawing source authorities
(fastpay_core/src/client.rs 475-486): `samples` is the stream of draws
produced by `committee.sample()` (stake-weighted RNG, modelled as an
oracle stream), `cands` the not-yet-chosen signers of the certificate,
`retries` the remaining budget.  The loop stops when the budget is
exhausted, the candidate set is empty, or (in the model) the sample
stream runs out. -/
def sample_sources : List AuthorityName → List AuthorityName → Nat → List AuthorityName
  | [], _, _ => []
  | s :: rest, cands, retries =>
    if retries = 0 ∨ cands.isEmpty then []
    else if s ∈ cands then s :: sample_sources rest (cands.erase s) (retries - 1)
    else sample_sources rest cands retries

/-- Outcome of one time-bounded source-to-destination sync attempt:
either the per-attempt timeout elapsed, or the attempt completed with the
result of `sync_authority_source_to_destination`. -/
inductive AttemptOutcome where
  | timedOut
  | completed (r : Except SuiError Unit)

/-- The retry loop of `sync_certificate_to_authority_with_timeout`
(fastpay_core/src/client.rs 490-520).  The source tests
`timeout(..., sync_authority_source_to_destination(...)).await.is_ok()`,
which is true exactly when the attempt did not time out — the inner
result of the attempt is discarded. -/
def sync_retry_loop (attempt : AuthorityName → AttemptOutcome) :
    List AuthorityName → Except SuiError Unit
  | [] => .error .AuthorityUpdateFailure
  | s :: rest =>
    match attempt s with
    | .completed _ => .ok ()
    | .timedOut => sync_retry_loop attempt rest

/-- `sync_certificate_to_authority_with_timeout`
(fastpay_core/src/client.rs 458-521): the candidate sources are the
distinct signers of the certificate (a `HashSet` in the source, hence
`dedup`), at most `retries` of them are drawn by stake, and each is tried
under the per-attempt time bound. -/
def sync_certificate_to_authority_with_timeout (signers : List AuthorityName)
    (samples : List AuthorityName) (retries : Nat)
    (attempt : AuthorityName → AttemptOutcome) : Except SuiError Unit :=
  sync_retry_loop attempt (sample_sources samples signers.dedup retries)

/-! ## Object downloader (`fetch_and_store_object`,
fastpay_core/src/client.rs 1296-1363) -/

/-- An object payload; `to_object_reference` is `(id, version, digest)`
and `digest()` is the content hash, an opaque stored value here. -/
structure Obj where
  id : ObjectID
  version : SequenceNumber
  digest : ObjectDigest
deriving DecidableEq, Repr

/-- What one authority's `handle_object_info_request` produced for the
download task, after the per-call timeout: the call timed out, failed,
returned no `object_and_lock`, or returned an object. -/
inductive FetchOutcome where
  | requestTimedOut
  | rpcError (e : SuiError)
  | noObject
  | objectReturned (o : Obj)
deriving DecidableEq, Repr

/-- `OBJECT_DOWNLOAD_CHANNEL_BOUND` (fastpay_core/src/client.rs 26): the
capacity of the bounded channel over which download results are
reported. -/
def OBJECT_DOWNLOAD_CHANNEL_BOUND : Nat := 1024

/-- Classification of one authority result inside the download loop
(fastpay_core/src/client.rs 1332-1353): only an object whose digest
equals the requested ref's digest yields `Ok`. -/
def classifyFetch (object_ref : ObjectRef) : FetchOutcome → Except SuiError Obj
  | .requestTimedOut => .error (.ObjectFetchFailed object_ref.id .requestTimedOut)
  | .rpcError e => .error e
  | .noObject => .error (.ObjectFetchFailed object_ref.id .objectAndLockIsNone)
  | .objectReturned o =>
    if o.digest = object_ref.digest then .ok o
    else .error (.ObjectFetchFailed object_ref.id .digestMismatch)

/-- The scan over all authority results: `ret_val` is overwritten by each
result and the loop breaks on the first `Ok` (fastpay_core/src/client.rs
1324-1358). -/
def fetchScan (object_ref : ObjectRef) (acc : Except SuiError Obj) :
    List FetchOutcome → Except SuiError Obj
  | [] => acc
  | r :: rest =>
    match classifyFetch object_ref r with
    | .ok o => .ok o
    | .error e => fetchScan object_ref (.error e) rest

/-- `fetch_and_store_object` for one requested ref, given the per-authority
results (each already subjected to the per-request timeout). -/
def fetch_and_store_object (object_ref : ObjectRef) (results : List FetchOutcome) :
    Except SuiError Obj :=
  fetchScan object_ref
    (.error (.ObjectFetchFailed object_ref.id .noAuthorityReturnedObject)) results

/-! ## Concrete instances used by witnesses and counterexamples -/

/-- The empty per-address store. -/
def emptyState : ClientState :=
  { object_refs := fun _ => none
    object_certs := fun _ => none
    certificates := fun _ => none
    pending_transactions := fun _ => none }

/-- A transfer-like transaction consuming object 1 at version 0. -/
def txA : Transaction :=
  { sender := 0, inputs := [.OwnedMoveObject ⟨1, 0, 7⟩], tdigest := 40 }

/-- A different transaction consuming the same object 1. -/
def txB : Transaction :=
  { sender := 2, inputs := [.OwnedMoveObject ⟨1, 0, 7⟩], tdigest := 41 }

/-- A store in which object 1 is already locked by `txB`. -/
def lockedByB : ClientState :=
  { emptyState with pending_transactions := fun k => if k = 1 then some txB else none }

/-- The store obtained by locking the non-package inputs of `t` for `t`. -/
def lockedState (st : ClientState) (t : Transaction) : ClientState :=
  { st with pending_transactions :=
      fun k => if k ∈ lockKeys t then some t else st.pending_transactions k }

/-- A store that already knows object 1 at version 5. -/
def stKnows5 : ClientState :=
  { emptyState with object_refs := fun i => if i = 1 then some ⟨1, 5, 7⟩ else none }

/-- A transaction consuming object 1 at version 5. -/
def txC : Transaction :=
  { sender := 0, inputs := [.OwnedMoveObject ⟨1, 5, 7⟩], tdigest := 50 }

/-- Its certificate. -/
def certC : CertifiedTransaction := ⟨txC⟩

/-- Effects whose single mutated entry keeps version 5 (the version the
store already knows), owned by the sender. -/
def effC : TransactionEffects :=
  { created := [], mutated := [(⟨1, 5, 8⟩, .SingleOwner 0)], deleted := [] }

/-- Effects whose single mutated entry advances object 1 to version 6,
owned by the sender. -/
def effC6 : TransactionEffects :=
  { created := [], mutated := [(⟨1, 6, 8⟩, .SingleOwner 0)], deleted := [] }

/-! ## Lemmas about the lock table -/

theorem can_lock_or_unlock_eq_false_iff (st : ClientState) (t : Transaction) :
    can_lock_or_unlock st t = false ↔
      ∃ k ∈ lockKeys t, ∃ u, st.pending_transactions k = some u ∧ u ≠ t := by
  rw [← Bool.not_eq_true, can_lock_or_unlock, List.all_eq_true]
  push_neg
  constructor
  · rintro ⟨k, hk, hp⟩
    refine ⟨k, hk, ?_⟩
    cases hu : st.pending_transactions k with
    | none => rw [hu] at hp; simp at hp
    | some u =>
      rw [hu] at hp
      simp at hp
      exact ⟨u, rfl, hp⟩
  · rintro ⟨k, hk, u, hu, hne⟩
    exact ⟨k, hk, by simp [hu, hne]⟩

theorem can_lock_or_unlock_eq_true_iff (st : ClientState) (t : Transaction) :
    can_lock_or_unlock st t = true ↔
      ∀ k ∈ lockKeys t, ∀ u, st.pending_transactions k = some u → u = t := by
  rw [can_lock_or_unlock, List.all_eq_true]
  constructor
  · intro h k hk u hu
    have := h k hk
    rw [hu] at this
    simpa using this
  · intro h k hk
    cases hu : st.pending_transactions k with
    | none => simp
    | some u => simpa using h k hk u hu

/-- Claim C4: `lock_pending_transaction_objects(T)` fails with
`ConcurrentTransactionError` iff some non-package input of `T` has a
pending entry that is present and differs from `T`; otherwise it
succeeds, setting `pending[k] = T` for every non-package input `k` and
leaving every other pending entry unchanged. -/
theorem lock_pending_transaction_objects_spec (st : ClientState) (t : Transaction) :
    (lock_pending_transaction_objects st t = .error .ConcurrentTransactionError ↔
       ∃ k ∈ lockKeys t, ∃ u, st.pending_transactions k = some u ∧ u ≠ t) ∧
    (∀ st', lock_pending_transaction_objects st t = .ok st' →
       ∀ k, st'.pending_transactions k =
         if k ∈ lockKeys t then some t else st.pending_transactions k) ∧
    ((¬ ∃ k ∈ lockKeys t, ∃ u, st.pending_transactions k = some u ∧ u ≠ t) →
       lock_pending_transaction_objects st t = .ok (lockedState st t)) := by
  refine ⟨?_, ?_, ?_⟩
  · rw [← can_lock_or_unlock_eq_false_iff st t]
    unfold lock_pending_transaction_objects
    cases h : can_lock_or_unlock st t <;> simp [h]
  · intro st' h k
    unfold lock_pending_transaction_objects at h
    cases hc : can_lock_or_unlock st t <;> rw [hc] at h <;> simp at h
    rw [← h]
  · intro hn
    rw [← can_lock_or_unlock_eq_false_iff st t] at hn
    have hc : can_lock_or_unlock st t = true := by
      cases h : can_lock_or_unlock st t
      · exact absurd h hn
      · rfl
    simp [lock_pending_transaction_objects, hc, lockedState]

/-- Witness for C4: a store in which object 1 is pending under a
different transaction makes `lock_pending_transaction_objects` fail with
`ConcurrentTransactionError`. -/
theorem lock_pending_transaction_objects_spec_witness :
    lock_pending_transaction_objects lockedByB txA = .error .ConcurrentTransactionError :=
  (lock_pending_transaction_objects_spec lockedByB txA).1.mpr
    ⟨1, by decide, txB, rfl, by decide⟩

/-- Claim C9: on a store where none of `T`'s non-package inputs is
pending, locking and then unlocking `T` succeeds and restores the store
exactly (lock-then-unlock is the identity on the lock table). -/
theorem lock_then_unlock_identity (st : ClientState) (t : Transaction)
    (h : ∀ k ∈ lockKeys t, st.pending_transactions k = none) :
    lock_pending_transaction_objects st t = .ok (lockedState st t) ∧
    unlock_pending_transaction_objects (lockedState st t) t = .ok st := by
  have hcan : can_lock_or_unlock st t = true := by
    rw [can_lock_or_unlock_eq_true_iff]
    intro k hk u hu
    rw [h k hk] at hu
    cases hu
  constructor
  · simp [lock_pending_transaction_objects, hcan, lockedState]
  · have hcan2 : can_lock_or_unlock (lockedState st t) t = true := by
      rw [can_lock_or_unlock_eq_true_iff]
      intro k hk u hu
      simp [lockedState, hk] at hu
      exact hu.symm
    simp only [unlock_pending_transaction_objects, hcan2, if_true]
    cases st with
    | mk orefs ocerts certs pend =>
      simp only [lockedState, Except.ok.injEq]
      congr 1
      funext k
      by_cases hk : k ∈ lockKeys t
      · simp only [hk, if_true]
        exact (h k hk).symm
      · simp [hk]

/-- Witness for C9 at a concrete store and transaction. -/
theorem lock_then_unlock_identity_witness :
    lock_pending_transaction_objects emptyState txA = .ok (lockedState emptyState txA) ∧
    unlock_pending_transaction_objects (lockedState emptyState txA) txA = .ok emptyState :=
  lock_then_unlock_identity emptyState txA (by intro k _; rfl)

/-- Claim C10: `unlock_pending_transaction_objects(T)` fails with
`ConcurrentTransactionError` whenever some non-package input of `T` has a
pending entry holding a transaction different from `T`; on success it
clears exactly the entries of `T`'s non-package inputs; in no case does
it remove a pending entry mapping to a transaction other than `T`; and on
a store with no pending entries for its inputs it succeeds as a no-op. -/
theorem unlock_pending_transaction_objects_spec (st : ClientState) (t : Transaction) :
    (unlock_pending_transaction_objects st t = .error .ConcurrentTransactionError ↔
       ∃ k ∈ lockKeys t, ∃ u, st.pending_transactions k = some u ∧ u ≠ t) ∧
    (∀ st', unlock_pending_transaction_objects st t = .ok st' →
       ∀ k, st'.pending_transactions k =
         if k ∈ lockKeys t then none else st.pending_transactions k) ∧
    (∀ k u, st.pending_transactions k = some u → u ≠ t →
       pendingAfterUnlock st t k = some u) ∧
    ((∀ k ∈ lockKeys t, st.pending_transactions k = none) →
       unlock_pending_transaction_objects st t = .ok st) := by
  refine ⟨?_, ?_, ?_, ?_⟩
  · rw [← can_lock_or_unlock_eq_false_iff st t]
    unfold unlock_pending_transaction_objects
    cases h : can_lock_or_unlock st t <;> simp [h]
  · intro st' h k
    unfold unlock_pending_transaction_objects at h
    cases hc : can_lock_or_unlock st t <;> rw [hc] at h <;> simp at h
    rw [← h]
  · intro k u hu hne
    unfold pendingAfterUnlock unlock_pending_transaction_objects
    cases hc : can_lock_or_unlock st t
    · simpa using hu
    · simp only [if_true]
      by_cases hk : k ∈ lockKeys t
      · have := (can_lock_or_unlock_eq_true_iff st t).mp hc k hk u hu
        exact absurd this hne
      · simpa [hk] using hu
  · intro hnone
    have hcan : can_lock_or_unlock st t = true := by
      rw [can_lock_or_unlock_eq_true_iff]
      intro k hk u hu
      rw [hnone k hk] at hu
      cases hu
    simp only [unlock_pending_transaction_objects, hcan, if_true]
    cases st with
    | mk orefs ocerts certs pend =>
      simp only [Except.ok.injEq]
      congr 1
      funext k
      by_cases hk : k ∈ lockKeys t
      · simp only [hk, if_true]
        exact (hnone k hk).symm
      · simp [hk]

/-- Witness for C10: unlocking while object 1 is pending under a
different transaction fails with `ConcurrentTransactionError`. -/
theorem unlock_pending_transaction_objects_spec_witness :
    unlock_pending_transaction_objects lockedByB txA = .error .ConcurrentTransactionError :=
  (unlock_pending_transaction_objects_spec lockedByB txA).1.mpr
    ⟨1, by decide, txB, rfl, by decide⟩

/-! ## Precheck of execute_transaction -/

/-- Claim C8: when an input object id has no entry in the local
`object_refs` table, the version precheck of `execute_transaction`
treats the highest known version as the default 0, so it never fails
with `UnexpectedSequenceNumber` for that input, whatever version the
transaction states for it. -/
theorem precheck_unknown_object_passes (st : ClientState) (k : InputObjectKind)
    (h : st.object_refs k.object_id = none) :
    precheckInput st k = .ok () := by
  simp [precheckInput, highest_known_version, h, unwrapOrDefaultSeq]

/-- Witness for C8 at a concrete empty store: object 1 is unknown and the
precheck accepts an input naming it at an arbitrary version. -/
theorem precheck_unknown_object_passes_witness :
    emptyState.object_refs (InputObjectKind.OwnedMoveObject ⟨1, 7, 3⟩).object_id = none ∧
    precheckInput emptyState (.OwnedMoveObject ⟨1, 7, 3⟩) = .ok () :=
  ⟨rfl, precheck_unknown_object_passes emptyState (.OwnedMoveObject ⟨1, 7, 3⟩) rfl⟩

/-! ## Error handling of execute_transaction (claim C2) -/

/-- Claim C2 (refuted; the spec's rule is not implemented): the source's
`execute_transaction` unlocks the pending entries unconditionally before
returning — here the vote/confirm pipeline fails with
`AuthorityUpdateFailure`, a kind *outside* the side-effect-free set
{UnexpectedSequenceNumber, InvalidObjectDigest, LockErrors,
ObjectNotFound}, yet the lock on input object 1 is gone at return; and
fastpay's `handle_transaction_error_side_effects`, whose classification
is commented out, passes every error through without touching the lock
table. -/
theorem execute_transaction_unlocks_on_any_error :
    (execute_transaction (.error .AuthorityUpdateFailure) txA emptyState).1
        = .error .AuthorityUpdateFailure ∧
    (execute_transaction (.error .AuthorityUpdateFailure) txA emptyState).2.pending_transactions 1
        = none ∧
    handle_transaction_error_side_effects (T := Unit) (.error .AuthorityUpdateFailure)
        = .error .AuthorityUpdateFailure := by
  refine ⟨rfl, rfl, rfl⟩

/-! ## Certificate requester (claim C5) -/

/-- Claim C5 (refuted; legacy off-by-one): for `(object_id, v)` the
request built by `CertificateRequester::query` asks for the parent
certificate at sequence `v + 1`, not at `v` as the spec requires — shown
here at `v = 5`, where the request carries sequence 6. -/
theorem query_request_off_by_one :
    query_request 7 5 = { object_id := 7, request_sequence_number := some 6 } ∧
    (query_request 7 5).request_sequence_number ≠ some 5 := by
  exact ⟨rfl, by decide⟩

/-! ## Sync retry loop (claim C6) -/

/-- Claim C6 (refuted): the retry loop of
`sync_certificate_to_authority_with_timeout` only tests whether the
attempt timed out (`timeout(...).is_ok()`), discarding the attempt's own
result — a single sampled source whose sync attempt *fails* within the
time bound (here with `AuthorityInformationUnavailable`) makes the
function return success instead of `AuthorityUpdateFailure`. -/
theorem sync_accepts_failed_attempt :
    sync_certificate_to_authority_with_timeout [0] [0] 1
        (fun _ => .completed (.error .AuthorityInformationUnavailable)) = .ok () := by
  rfl

/-! ## Object downloader (claim C7) -/

theorem classifyFetch_eq_ok_iff (object_ref : ObjectRef) (r : FetchOutcome) (o : Obj) :
    classifyFetch object_ref r = .ok o ↔
      r = .objectReturned o ∧ o.digest = object_ref.digest := by
  cases r with
  | requestTimedOut => simp [classifyFetch]
  | rpcError e => simp [classifyFetch]
  | noObject => simp [classifyFetch]
  | objectReturned p =>
    simp only [classifyFetch]
    by_cases h : p.digest = object_ref.digest
    · simp only [h, if_true, Except.ok.injEq, FetchOutcome.objectReturned.injEq]
      constructor
      · rintro rfl
        exact ⟨rfl, h⟩
      · rintro ⟨rfl, _⟩
        rfl
    · simp only [h, if_false, FetchOutcome.objectReturned.injEq]
      constructor
      · intro hx
        cases hx
      · rintro ⟨rfl, hd⟩
        exact absurd hd h

theorem fetchScan_ok_mem (object_ref : ObjectRef) :
    ∀ (results : List FetchOutcome) (e0 : SuiError) (o : Obj),
      fetchScan object_ref (.error e0) results = .ok o →
      o.digest = object_ref.digest ∧ FetchOutcome.objectReturned o ∈ results := by
  intro results
  induction results with
  | nil => intro e0 o h; simp [fetchScan] at h
  | cons r rest ih =>
    intro e0 o h
    cases hc : classifyFetch object_ref r with
    | ok p =>
      simp only [fetchScan, hc] at h
      cases h
      obtain ⟨hr, hd⟩ := (classifyFetch_eq_ok_iff object_ref r o).mp hc
      exact ⟨hd, by rw [hr]; exact List.mem_cons_self _ _⟩
    | error e' =>
      simp only [fetchScan, hc] at h
      obtain ⟨hd, hm⟩ := ih e' o h
      exact ⟨hd, List.mem_cons_of_mem _ hm⟩

theorem fetchScan_isOk_iff (object_ref : ObjectRef) :
    ∀ (results : List FetchOutcome) (e0 : SuiError),
      (∃ o, fetchScan object_ref (.error e0) results = .ok o) ↔
      (∃ o, FetchOutcome.objectReturned o ∈ results ∧ o.digest = object_ref.digest) := by
  intro results
  induction results with
  | nil => intro e0; simp [fetchScan]
  | cons r rest ih =>
    intro e0
    cases hc : classifyFetch object_ref r with
    | ok p =>
      obtain ⟨hr, hd⟩ := (classifyFetch_eq_ok_iff object_ref r p).mp hc
      constructor
      · intro _
        exact ⟨p, by rw [hr]; exact List.mem_cons_self _ _, hd⟩
      · intro _
        refine ⟨p, ?_⟩
        simp only [fetchScan, hc]
    | error e' =>
      simp only [fetchScan, hc]
      rw [ih e']
      constructor
      · rintro ⟨o, hm, hd⟩
        exact ⟨o, List.mem_cons_of_mem _ hm, hd⟩
      · rintro ⟨o, hm, hd⟩
        rcases List.mem_cons.mp hm with heq | hm'
        · exfalso
          have hok : classifyFetch object_ref r = .ok o :=
            (classifyFetch_eq_ok_iff object_ref r o).mpr ⟨heq.symm, hd⟩
          rw [hc] at hok
          cases hok
        · exact ⟨o, hm', hd⟩

/-- Claim C7: the object-download task accepts only an object whose
digest equals the requested ref's digest; it fails exactly when no
authority returned a digest-matching object (unmatched digests, timeouts
and authority errors all counting as not found); and results are
reported over the bounded channel of capacity
`OBJECT_DOWNLOAD_CHANNEL_BOUND = 1024`. -/
theorem fetch_and_store_object_spec (object_ref : ObjectRef) (results : List FetchOutcome) :
    (∀ o, fetch_and_store_object object_ref results = .ok o →
       o.digest = object_ref.digest ∧ FetchOutcome.objectReturned o ∈ results) ∧
    ((∃ e, fetch_and_store_object object_ref results = .error e) ↔
       ∀ o, FetchOutcome.objectReturned o ∈ results → o.digest ≠ object_ref.digest) ∧
    OBJECT_DOWNLOAD_CHANNEL_BOUND = 1024 := by
  refine ⟨?_, ?_, rfl⟩
  · intro o h
    exact fetchScan_ok_mem object_ref results _ o h
  · have hiff := fetchScan_isOk_iff object_ref results
      (.ObjectFetchFailed object_ref.id .noAuthorityReturnedObject)
    constructor
    · rintro ⟨e, he⟩ o hm hd
      obtain ⟨p, hp⟩ := hiff.mpr ⟨o, hm, hd⟩
      rw [fetch_and_store_object] at he
      rw [hp] at he
      cases he
    · intro hall
      cases hres : fetch_and_store_object object_ref results with
      | error e => exact ⟨e, rfl⟩
      | ok o =>
        obtain ⟨hd, hm⟩ := fetchScan_ok_mem object_ref results _ o hres
        exact absurd hd (hall o hm)

/-- Witness for C7: the accepted object of a concrete run matches the
requested digest and was returned by some authority. -/
theorem fetch_and_store_object_spec_witness :
    (⟨1, 1, 9⟩ : Obj).digest = (⟨1, 1, 9⟩ : ObjectRef).digest ∧
    FetchOutcome.objectReturned ⟨1, 1, 9⟩ ∈
      [FetchOutcome.noObject, FetchOutcome.objectReturned ⟨1, 1, 9⟩] :=
  (fetch_and_store_object_spec ⟨1, 1, 9⟩
      [FetchOutcome.noObject, FetchOutcome.objectReturned ⟨1, 1, 9⟩]).1 ⟨1, 1, 9⟩ rfl

/-! ## Store updates after a successful transaction (claim C3) -/

theorem knownSeq_congr (st st' : ClientState) (i : ObjectID)
    (h : st'.object_refs i = st.object_refs i) :
    unwrapOrDefaultSeq (highest_known_version st' i) =
      unwrapOrDefaultSeq (highest_known_version st i) := by
  unfold highest_known_version
  rw [h]

theorem applyMutatedEntry_object_refs_other (a : SuiAddress) (d : TxDigest)
    (st : ClientState) (entry : ObjectRef × Owner) (i : ObjectID)
    (h : entry.1.id ≠ i) :
    (applyMutatedEntry a d st entry).object_refs i = st.object_refs i := by
  have h' : i ≠ entry.1.id := Ne.symm h
  simp only [applyMutatedEntry]
  split
  · split
    · simp [insert_object_info, h']
    · simp [remove_object_info, h']
  · split
    · simp [update_object_ref, h']
    · rfl

theorem applyMutatedEntry_object_certs_other (a : SuiAddress) (d : TxDigest)
    (st : ClientState) (entry : ObjectRef × Owner) (r : ObjectRef)
    (h : entry.1.id ≠ r.id) :
    (applyMutatedEntry a d st entry).object_certs r = st.object_certs r := by
  simp only [applyMutatedEntry]
  split
  · split
    · have hne : r ≠ entry.1 := fun he => h (by rw [he])
      simp [insert_object_info, hne]
    · have hne : r.id ≠ entry.1.id := Ne.symm h
      simp [remove_object_info, hne]
  · split
    · simp [update_object_ref]
    · rfl

theorem applyDeletedEntry_object_refs_other (st : ClientState) (q : ObjectRef)
    (i : ObjectID) (h : q.id ≠ i) :
    (applyDeletedEntry st q).object_refs i = st.object_refs i := by
  have h' : i ≠ q.id := Ne.symm h
  simp only [applyDeletedEntry]
  split
  · simp [remove_object_info, h']
  · rfl

theorem applyDeletedEntry_object_certs_other (st : ClientState) (q : ObjectRef)
    (r : ObjectRef) (h : q.id ≠ r.id) :
    (applyDeletedEntry st q).object_certs r = st.object_certs r := by
  have h' : r.id ≠ q.id := Ne.symm h
  simp only [applyDeletedEntry]
  split
  · simp [remove_object_info, h']
  · rfl

theorem foldMut_object_refs_other (a : SuiAddress) (d : TxDigest)
    (l : List (ObjectRef × Owner)) (st : ClientState) (i : ObjectID)
    (h : ∀ p ∈ l, p.1.id ≠ i) :
    (l.foldl (applyMutatedEntry a d) st).object_refs i = st.object_refs i := by
  induction l generalizing st with
  | nil => rfl
  | cons p rest ih =>
    rw [List.foldl_cons, ih _ fun q hq => h q (List.mem_cons_of_mem _ hq)]
    exact applyMutatedEntry_object_refs_other a d st p i (h p (List.mem_cons_self _ _))

theorem foldMut_object_certs_other (a : SuiAddress) (d : TxDigest)
    (l : List (ObjectRef × Owner)) (st : ClientState) (r : ObjectRef)
    (h : ∀ p ∈ l, p.1.id ≠ r.id) :
    (l.foldl (applyMutatedEntry a d) st).object_certs r = st.object_certs r := by
  induction l generalizing st with
  | nil => rfl
  | cons p rest ih =>
    rw [List.foldl_cons, ih _ fun q hq => h q (List.mem_cons_of_mem _ hq)]
    exact applyMutatedEntry_object_certs_other a d st p r (h p (List.mem_cons_self _ _))

theorem foldDel_object_refs_other (l : List ObjectRef) (st : ClientState) (i : ObjectID)
    (h : ∀ q ∈ l, q.id ≠ i) :
    (l.foldl applyDeletedEntry st).object_refs i = st.object_refs i := by
  induction l generalizing st with
  | nil => rfl
  | cons q rest ih =>
    rw [List.foldl_cons, ih _ fun p hp => h p (List.mem_cons_of_mem _ hp)]
    exact applyDeletedEntry_object_refs_other st q i (h q (List.mem_cons_self _ _))

theorem foldDel_object_certs_other (l : List ObjectRef) (st : ClientState) (r : ObjectRef)
    (h : ∀ q ∈ l, q.id ≠ r.id) :
    (l.foldl applyDeletedEntry st).object_certs r = st.object_certs r := by
  induction l generalizing st with
  | nil => rfl
  | cons q rest ih =>
    rw [List.foldl_cons, ih _ fun p hp => h p (List.mem_cons_of_mem _ hp)]
    exact applyDeletedEntry_object_certs_other st q r (h q (List.mem_cons_self _ _))

theorem applyMutatedEntry_inserts (a : SuiAddress) (d : TxDigest) (st : ClientState)
    (ref : ObjectRef)
    (hv : unwrapOrDefaultSeq (highest_known_version st ref.id) < ref.seq) :
    (applyMutatedEntry a d st (ref, Owner.SingleOwner a)).object_refs ref.id = some ref ∧
    (applyMutatedEntry a d st (ref, Owner.SingleOwner a)).object_certs ref = some d := by
  simp only [applyMutatedEntry]
  rw [if_pos hv]
  refine ⟨?_, ?_⟩ <;> simp [insert_object_info]

theorem foldMut_updates (a : SuiAddress) (d : TxDigest)
    (l : List (ObjectRef × Owner)) (st : ClientState) (ref : ObjectRef)
    (hmem : (ref, Owner.SingleOwner a) ∈ l)
    (hnodup : (l.map fun p => p.1.id).Nodup)
    (hv : unwrapOrDefaultSeq (highest_known_version st ref.id) < ref.seq) :
    (l.foldl (applyMutatedEntry a d) st).object_refs ref.id = some ref ∧
    (l.foldl (applyMutatedEntry a d) st).object_certs ref = some d := by
  induction l generalizing st with
  | nil => cases hmem
  | cons p rest ih =>
    rw [List.map_cons, List.nodup_cons] at hnodup
    rw [List.foldl_cons]
    rcases List.mem_cons.mp hmem with heq | hmem'
    · cases heq
      have hact := applyMutatedEntry_inserts a d st ref hv
      have hne : ∀ q ∈ rest, q.1.id ≠ ref.id := by
        intro q hq he
        exact hnodup.1 (he ▸ List.mem_map_of_mem (fun p => p.1.id) hq)
      constructor
      · rw [foldMut_object_refs_other a d rest _ ref.id hne]
        exact hact.1
      · rw [foldMut_object_certs_other a d rest _ ref hne]
        exact hact.2
    · have hpid : p.1.id ≠ ref.id := by
        intro he
        apply hnodup.1
        rw [he]
        exact List.mem_map_of_mem (fun p => p.1.id) hmem'
      refine ih (applyMutatedEntry a d st p) hmem' hnodup.2 ?_
      rw [knownSeq_congr st (applyMutatedEntry a d st p) ref.id
        (applyMutatedEntry_object_refs_other a d st p ref.id hpid)]
      exact hv

theorem update_objects_from_transaction_info_updates (st : ClientState)
    (cert : CertifiedTransaction) (effects : TransactionEffects) (ref : ObjectRef)
    (hmem : (ref, Owner.SingleOwner cert.transaction.sender) ∈ effects.mutated_and_created)
    (hnodup : ((effects.mutated_and_created.map fun p => p.1.id) ++
        effects.deleted.map ObjectRef.id).Nodup)
    (hv : unwrapOrDefaultSeq (highest_known_version st ref.id) < ref.seq) :
    (update_objects_from_transaction_info st cert effects).object_refs ref.id = some ref ∧
    (update_objects_from_transaction_info st cert effects).object_certs ref =
      some cert.transaction.tdigest := by
  obtain ⟨hn1, hn2, hdisj⟩ := List.nodup_append.mp hnodup
  have hv1 : unwrapOrDefaultSeq (highest_known_version
      (insert_certificate st cert.transaction.tdigest cert) ref.id) < ref.seq := by
    rw [knownSeq_congr st (insert_certificate st cert.transaction.tdigest cert) ref.id rfl]
    exact hv
  have hfold := foldMut_updates cert.transaction.sender cert.transaction.tdigest
    effects.mutated_and_created _ ref hmem hn1 hv1
  have hdel : ∀ q ∈ effects.deleted, q.id ≠ ref.id := by
    intro q hq he
    refine hdisj (a := ref.id) ?_ ?_
    · exact List.mem_map_of_mem (fun p => p.1.id) hmem
    · rw [← he]
      exact List.mem_map_of_mem ObjectRef.id hq
  unfold update_objects_from_transaction_info
  constructor
  · rw [foldDel_object_refs_other _ _ ref.id hdel]
    exact hfold.1
  · rw [foldDel_object_certs_other _ _ ref hdel]
    exact hfold.2

theorem lock_preserves_tables (st : ClientState) (t : Transaction) (st' : ClientState)
    (h : lock_pending_transaction_objects st t = .ok st') :
    st'.object_refs = st.object_refs ∧ st'.object_certs = st.object_certs := by
  unfold lock_pending_transaction_objects at h
  split at h
  · cases h
    exact ⟨rfl, rfl⟩
  · cases h

theorem unlock_preserves_tables (st : ClientState) (t : Transaction) (st' : ClientState)
    (h : unlock_pending_transaction_objects st t = .ok st') :
    st'.object_refs = st.object_refs ∧ st'.object_certs = st.object_certs := by
  unfold unlock_pending_transaction_objects at h
  split at h
  · cases h
    exact ⟨rfl, rfl⟩
  · cases h

/-- Claim C3 as amended: after an `execute_transaction` that returns
success with certificate `C` and effects `E`, and provided the object
ids of `E.created ∪ E.mutated ∪ E.deleted` are pairwise distinct, every
`(ref, owner)` of `E.created ∪ E.mutated` owned by the sender *whose
version strictly exceeds the locally known highest version of its id*
ends with `object_refs[ref.id] = ref` and `object_certs[ref] =
C.transaction.digest`.  (For an entry at exactly the known version the
source updates only `object_refs` and writes no provenance entry.) -/
theorem execute_transaction_success_updates_owned
    (oracle : Except SuiError (CertifiedTransaction × TransactionEffects))
    (tx : Transaction) (st : ClientState)
    (c : CertifiedTransaction) (e : TransactionEffects) (ref : ObjectRef)
    (hok : (execute_transaction oracle tx st).1 = .ok (c, e))
    (hnodup : ((e.mutated_and_created.map fun p => p.1.id) ++
        e.deleted.map ObjectRef.id).Nodup)
    (hmem : (ref, Owner.SingleOwner c.transaction.sender) ∈ e.mutated_and_created)
    (hv : unwrapOrDefaultSeq (highest_known_version st ref.id) < ref.seq) :
    (execute_transaction oracle tx st).2.object_refs ref.id = some ref ∧
    (execute_transaction oracle tx st).2.object_certs ref =
      some c.transaction.tdigest := by
  cases oracle with
  | error e0 =>
    exfalso
    revert hok
    unfold execute_transaction
    split
    · intro hok
      simp at hok
    · split
      · intro hok
        simp at hok
      · split
        · intro hok
          simp at hok
        · intro hok
          simp [execute_transaction_inner] at hok
  | ok ce =>
    obtain ⟨c', e'⟩ := ce
    revert hok
    unfold execute_transaction
    split
    · intro hok
      simp at hok
    · split
      · intro hok
        simp at hok
      · rename_i u st1 hlock
        split
        · intro hok
          simp at hok
        · rename_i st3 hu
          intro hok
          simp only [execute_transaction_inner] at hok hu ⊢
          simp only [Except.ok.injEq, Prod.mk.injEq] at hok
          obtain ⟨hc, he⟩ := hok
          subst hc
          subst he
          obtain ⟨hrefs1, hcerts1⟩ := lock_preserves_tables st tx st1 hlock
          obtain ⟨hrefs3, hcerts3⟩ := unlock_preserves_tables _ tx st3 hu
          have hv1 : unwrapOrDefaultSeq (highest_known_version st1 ref.id) < ref.seq := by
            rw [knownSeq_congr st st1 ref.id (congrFun hrefs1 ref.id)]
            exact hv
          have hupd := update_objects_from_transaction_info_updates st1 c' e' ref hmem hnodup hv1
          show st3.object_refs ref.id = some ref ∧
            st3.object_certs ref = some c'.transaction.tdigest
          constructor
          · rw [congrFun hrefs3 ref.id]
            exact hupd.1
          · rw [congrFun hcerts3 ref]
            exact hupd.2

/-- Witness for the amended C3: a concrete successful run whose single
mutated entry advances object 1 from version 5 to 6 leaves
`object_refs[1]` at the new ref and a provenance entry tying it to the
certificate digest. -/
theorem execute_transaction_success_updates_owned_witness :
    (execute_transaction (.ok (certC, effC6)) txC stKnows5).2.object_refs 1 =
        some ⟨1, 6, 8⟩ ∧
    (execute_transaction (.ok (certC, effC6)) txC stKnows5).2.object_certs ⟨1, 6, 8⟩ =
        some 50 :=
  execute_transaction_success_updates_owned (.ok (certC, effC6)) txC stKnows5
    certC effC6 ⟨1, 6, 8⟩ rfl (by decide) (by decide) (by decide)

/-- Counterexample refuting claim C3 as stated: a successful
`execute_transaction` whose mutated entry `(1, 5, 8)` is owned by the
sender but whose version equals the locally known highest version (5)
takes the source's `old_seq == seq` branch, which updates only
`object_refs` — no `object_certs` entry ties the new ref to the
certificate digest. -/
theorem execute_transaction_success_missing_provenance :
    (execute_transaction (.ok (certC, effC)) txC stKnows5).1 = .ok (certC, effC) ∧
    (⟨1, 5, 8⟩, Owner.SingleOwner certC.transaction.sender) ∈ effC.mutated_and_created ∧
    (execute_transaction (.ok (certC, effC)) txC stKnows5).2.object_certs ⟨1, 5, 8⟩ ≠
      some certC.transaction.tdigest := by
  refine ⟨rfl, by decide, by decide⟩

/-! ## Correctness of the quorum broadcaster (claim C1) -/

section QuorumBroadcasterProofs

variable {V E : Type} [DecidableEq E]

omit [DecidableEq E] in
theorem okValues_append_ok (l : List (AuthorityName × Except E V)) (n : AuthorityName) (v : V) :
    okValues (l ++ [(n, Except.ok v)]) = okValues l ++ [v] := by
  simp [okValues, List.filterMap_append]

omit [DecidableEq E] in
theorem okValues_append_error (l : List (AuthorityName × Except E V)) (n : AuthorityName)
    (e : E) : okValues (l ++ [(n, Except.error e)]) = okValues l := by
  simp [okValues, List.filterMap_append]

omit [DecidableEq E] in
theorem successStake_append_ok (w : AuthorityName → Nat)
    (l : List (AuthorityName × Except E V)) (n : AuthorityName) (v : V) :
    successStake w (l ++ [(n, Except.ok v)]) = successStake w l + w n := by
  simp [successStake, List.filterMap_append]

omit [DecidableEq E] in
theorem successStake_append_error (w : AuthorityName → Nat)
    (l : List (AuthorityName × Except E V)) (n : AuthorityName) (e : E) :
    successStake w (l ++ [(n, Except.error e)]) = successStake w l := by
  simp [successStake, List.filterMap_append]

theorem errStake_append_ok (w : AuthorityName → Nat) (f : E)
    (l : List (AuthorityName × Except E V)) (n : AuthorityName) (v : V) :
    errStake w f (l ++ [(n, Except.ok v)]) = errStake w f l := by
  simp [errStake, List.filterMap_append]

theorem errStake_append_error_self (w : AuthorityName → Nat)
    (l : List (AuthorityName × Except E V)) (n : AuthorityName) (e : E) :
    errStake w e (l ++ [(n, Except.error e)]) = errStake w e l + w n := by
  simp [errStake, List.filterMap_append]

theorem errStake_append_error_other (w : AuthorityName → Nat)
    (l : List (AuthorityName × Except E V)) (n : AuthorityName) (e f : E) (h : e ≠ f) :
    errStake w f (l ++ [(n, Except.error e)]) = errStake w f l := by
  simp [errStake, List.filterMap_append, h]

theorem seenKinds_append_ok (l : List (AuthorityName × Except E V)) (n : AuthorityName)
    (v : V) : seenKinds (l ++ [(n, Except.ok v)]) = seenKinds l := by
  simp [seenKinds, List.foldl_append]

theorem seenKinds_append_error (l : List (AuthorityName × Except E V)) (n : AuthorityName)
    (e : E) : seenKinds (l ++ [(n, Except.error e)]) =
      if e ∈ seenKinds l then seenKinds l else seenKinds l ++ [e] := by
  simp [seenKinds, List.foldl_append]

theorem lookupScore_bumpScore_self (es : List (E × Nat)) (e : E) (n : Nat) :
    lookupScore (bumpScore es e n) e = lookupScore es e + n := by
  induction es with
  | nil => simp [bumpScore, lookupScore]
  | cons p rest ih =>
    obtain ⟨f, m⟩ := p
    by_cases h : f = e
    · subst h
      simp [bumpScore, lookupScore]
    · simp [bumpScore, lookupScore, h, ih]

theorem lookupScore_bumpScore_other (es : List (E × Nat)) (e f : E) (n : Nat)
    (h : e ≠ f) : lookupScore (bumpScore es e n) f = lookupScore es f := by
  induction es with
  | nil => simp [bumpScore, lookupScore, h]
  | cons p rest ih =>
    obtain ⟨g, m⟩ := p
    by_cases hg : g = e
    · subst hg
      simp [bumpScore, lookupScore, h]
    · simp only [bumpScore, if_neg hg]
      by_cases hgf : g = f
      · simp [lookupScore, hgf]
      · simp [lookupScore, hgf, ih]

theorem bumpScore_keys (es : List (E × Nat)) (e : E) (n : Nat) :
    (bumpScore es e n).map Prod.fst =
      if e ∈ es.map Prod.fst then es.map Prod.fst else es.map Prod.fst ++ [e] := by
  induction es with
  | nil => simp [bumpScore]
  | cons p rest ih =>
    obtain ⟨f, m⟩ := p
    by_cases h : f = e
    · subst h
      simp [bumpScore]
    · have hef : ¬ e = f := fun he => h he.symm
      by_cases hm : e ∈ rest.map Prod.fst
      · simp [bumpScore, h, ih, hm, hef]
      · simp [bumpScore, h, ih, hm, hef]

theorem communicateAux_eq_quorumSpecGo (qt vt : Nat) (w : AuthorityName → Nat)
    (rest : List (AuthorityName × Except E V)) :
    ∀ (pre : List (AuthorityName × Except E V)) (vs : List V) (sc : Nat)
      (es : List (E × Nat)),
      vs = okValues pre →
      sc = successStake w pre →
      es.map Prod.fst = seenKinds pre →
      (∀ e, lookupScore es e = errStake w e pre) →
      successStake w pre < qt →
      (∀ e ∈ seenKinds pre, errStake w e pre < vt) →
      communicateAux qt vt w rest vs sc es = quorumSpecGo qt vt w pre rest := by
  induction rest with
  | nil =>
    intro pre vs sc es hvs hsc hkeys hscore hq hv
    simp [communicateAux, quorumSpecGo, hkeys]
  | cons r rest ih =>
    intro pre vs sc es hvs hsc hkeys hscore hq hv
    obtain ⟨n, res⟩ := r
    cases res with
    | ok v =>
      simp only [communicateAux, quorumSpecGo]
      have hsS : successStake w (pre ++ [(n, Except.ok v)]) = sc + w n := by
        rw [successStake_append_ok, hsc]
      by_cases hcond : qt ≤ sc + w n
      · rw [if_pos hcond, if_pos (by rw [hsS]; exact hcond)]
        rw [okValues_append_ok, hvs]
      · rw [if_neg hcond, if_neg (by rw [hsS]; exact hcond)]
        have hany : ((seenKinds (pre ++ [(n, Except.ok v)])).any
            fun e => decide (vt ≤ errStake w e (pre ++ [(n, Except.ok v)]))) = false := by
          rw [List.any_eq_false]
          intro e he
          rw [seenKinds_append_ok] at he
          simp only [errStake_append_ok, decide_eq_true_eq]
          exact Nat.not_le.mpr (hv e he)
        rw [hany, if_neg (by simp)]
        apply ih
        · rw [okValues_append_ok, hvs]
        · rw [hsS]
        · rw [hkeys, seenKinds_append_ok]
        · intro e
          rw [errStake_append_ok]
          exact hscore e
        · rw [hsS]
          exact Nat.lt_of_not_le hcond
        · intro e he
          rw [seenKinds_append_ok] at he
          rw [errStake_append_ok]
          exact hv e he
    | error e =>
      simp only [communicateAux, quorumSpecGo]
      have hsucc : ¬ qt ≤ successStake w (pre ++ [(n, Except.error e)]) := by
        rw [successStake_append_error]
        rw [← hsc]
        rw [hsc]
        exact Nat.not_le.mpr hq
      rw [if_neg hsucc]
      have hlook : lookupScore (bumpScore es e (w n)) e = errStake w e pre + w n := by
        rw [lookupScore_bumpScore_self, hscore e]
      have herrself : errStake w e (pre ++ [(n, Except.error e)]) = errStake w e pre + w n :=
        errStake_append_error_self w pre n e
      have hmemself : e ∈ seenKinds (pre ++ [(n, Except.error e)]) := by
        rw [seenKinds_append_error]
        by_cases hm : e ∈ seenKinds (V := V) pre
        · rw [if_pos hm]
          exact hm
        · rw [if_neg hm]
          exact List.mem_append.mpr (Or.inr (List.mem_singleton.mpr rfl))
      by_cases hcond : vt ≤ errStake w e pre + w n
      · rw [if_pos (by rw [hlook]; exact hcond)]
        have hany : ((seenKinds (pre ++ [(n, Except.error e)])).any
            fun f => decide (vt ≤ errStake w f (pre ++ [(n, Except.error e)]))) = true := by
          rw [List.any_eq_true]
          refine ⟨e, hmemself, ?_⟩
          simp only [herrself, decide_eq_true_eq]
          exact hcond
        rw [hany, if_pos rfl]
        rw [bumpScore_keys, hkeys, seenKinds_append_error]
      · rw [if_neg (by rw [hlook]; exact hcond)]
        have hother : ∀ f ∈ seenKinds (V := V) pre, f ≠ e →
            errStake w f (pre ++ [(n, Except.error e)]) < vt := by
          intro f hf hne
          rw [errStake_append_error_other w pre n e f (fun he => hne he.symm)]
          exact hv f hf
        have hany : ((seenKinds (pre ++ [(n, Except.error e)])).any
            fun f => decide (vt ≤ errStake w f (pre ++ [(n, Except.error e)]))) = false := by
          rw [List.any_eq_false]
          intro f hf
          simp only [decide_eq_true_eq]
          by_cases hfe : f = e
          · subst hfe
            rw [herrself]
            exact Nat.not_le.mpr (Nat.lt_of_not_le hcond)
          · rw [seenKinds_append_error] at hf
            have hfpre : f ∈ seenKinds (V := V) pre := by
              by_cases hm : e ∈ seenKinds (V := V) pre
              · simpa [hm] using hf
              · rw [if_neg hm] at hf
                rcases List.mem_append.mp hf with hl | hr
                · exact hl
                · exact absurd (List.mem_singleton.mp hr) hfe
            exact Nat.not_le.mpr (hother f hfpre hfe)
        rw [hany, if_neg (by simp)]
        apply ih
        · rw [okValues_append_error, hvs]
        · rw [successStake_append_error, hsc]
        · rw [bumpScore_keys, hkeys, seenKinds_append_error]
        · intro f
          by_cases hfe : f = e
          · subst hfe
            rw [hlook, herrself]
          · rw [lookupScore_bumpScore_other es e f (w n) (fun he => hfe he.symm),
              errStake_append_error_other w pre n e f (fun he => hfe he.symm)]
            exact hscore f
        · rw [successStake_append_error]
          exact hq
        · intro f hf
          by_cases hfe : f = e
          · subst hfe
            rw [herrself]
            exact Nat.lt_of_not_le hcond
          · rw [seenKinds_append_error] at hf
            have hfpre : f ∈ seenKinds (V := V) pre := by
              by_cases hm : e ∈ seenKinds (V := V) pre
              · simpa [hm] using hf
              · rw [if_neg hm] at hf
                rcases List.mem_append.mp hf with hl | hr
                · exact hl
                · exact absurd (List.mem_singleton.mp hr) hfe
            rw [errStake_append_error_other w pre n e f (fun he => hfe he.symm)]
            exact hv f hfpre

/-- Claim C1: for every committee (stake function and thresholds, both
thresholds positive as the committee formulas guarantee) and every run
of authority responses, `communicate_with_quorum` behaves exactly as the
spec's prioritized termination conditions: it returns the collected
success values as soon as the success stake reaches `quorum_threshold`;
it returns `QuorumNotReached` carrying the set of error kinds seen as
soon as the stake of one exact error kind reaches `validity_threshold`;
and when all authorities have responded with neither condition met it
returns `QuorumNotReached` with the kinds seen. -/
theorem communicate_with_quorum_correct (qt vt : Nat) (w : AuthorityName → Nat)
    (responses : List (AuthorityName × Except E V))
    (hqt : 1 ≤ qt) (hvt : 1 ≤ vt) :
    communicate_with_quorum qt vt w responses =
      communicate_with_quorum_spec qt vt w responses := by
  have _ := hvt
  unfold communicate_with_quorum communicate_with_quorum_spec
  apply communicateAux_eq_quorumSpecGo qt vt w responses []
  · rfl
  · rfl
  · rfl
  · intro e
    rfl
  · simpa [successStake] using hqt
  · intro e he
    simp [seenKinds] at he

end QuorumBroadcasterProofs

/-- Witness for C1: a committee of four unit-stake authorities
(quorum 3, validity 2) and a run in which the same error kind is
reported twice; the loop and the spec's termination conditions agree. -/
theorem communicate_with_quorum_correct_witness :
    ((1:Nat) ≤ 3 ∧ (1:Nat) ≤ 2) ∧
    communicate_with_quorum (V := Nat) (E := Nat) 3 2 (fun _ => 1)
        [(0, .error 5), (1, .ok 10), (2, .error 5), (3, .ok 11)] =
      communicate_with_quorum_spec (V := Nat) (E := Nat) 3 2 (fun _ => 1)
        [(0, .error 5), (1, .ok 10), (2, .error 5), (3, .ok 11)] :=
  ⟨⟨by decide, by decide⟩,
    communicate_with_quorum_correct 3 2 (fun _ => 1)
      [(0, .error 5), (1, .ok 10), (2, .error 5), (3, .ok 11)] (by decide) (by decide)⟩

end SuiClient
